import Mathlib

/-!
# Verification of the Firestore value converter

A shallow embedding of `src/utils/converter.ts` (and the variant converter in
the repository whose file name is unknown, referred to below as `Part0`),
together with the wire-value type of `src/types.ts`.

## Modelling conventions

* JavaScript numbers are modelled as rationals (`ℚ`).  `Number.isInteger q`
  is `q.den = 1`.
* A JavaScript plain object is modelled as its `Object.entries` list: an
  association list `List (String × α)` in property-insertion order.  Real
  JavaScript objects never contain a duplicated key, so the
  `reduce((acc, [k, v]) => ({...acc, [k]: f v}), {})` pattern over
  `Object.entries` of an object is exactly `List.map` on the entry list.
  The one spread that can genuinely overwrite an existing key —
  `{...result, id: ...}` in `convertFromFirestoreDocument` — is modelled by
  the explicit upsert `entSet` below, which reproduces JavaScript property
  semantics: an existing key keeps its position and receives the new value,
  a fresh key is appended.
* A JavaScript `Date` is modelled by its millisecond timestamp (`Int`).
  The encoder serialises a `Date` with the built-in `toISOString` and the
  decoder applies the built-in `Date` constructor to that string; at
  millisecond precision these built-ins are mutually inverse bijections
  between instants and their ISO-8601 strings (ECMA-262), so the wire
  `timestampValue` is modelled by the instant its ISO string denotes and
  date equality is equality of instants, the equality the specification
  prescribes for dates.
* A `DocumentReference` class instance is modelled by the constructor
  `JSValue.docRef` carrying the resource string that the external client
  call `value.client.pathUtil.getParentReference(value.path)` returns; the
  resolution itself is an external collaborator.
* Values outside the recognised universe (symbols, functions, ...) are
  modelled by `JSValue.other` carrying the result of their default string
  coercion `String(value)`.
* The wire union of `src/types.ts` has exactly one discriminator key per
  variant; the constructor `FSValue.unknown` additionally models a wire
  object carrying none of the ten discriminator keys (for example `{}`),
  which the decoder must map to null.  `mapValue` and `arrayValue` carry
  `Option` payloads because the decoder explicitly guards against an absent
  `fields` / `values` member.
-/

/-- A JavaScript value, as far as `convertToFirestoreValue` can observe it. -/
inductive JSValue where
  | str (s : String)
  | num (q : ℚ)
  | boolean (b : Bool)
  | null
  | undefined
  | date (ms : ℤ)
  | docRef (resolved : String)
  | arr (elems : List JSValue)
  | obj (fields : List (String × JSValue))
  | other (coerced : String)

/-- A Firestore wire value (`FirestoreFieldValue` of `src/types.ts`), plus
`unknown` for a wire object with no recognised discriminator key. -/
inductive FSValue where
  | stringValue (s : String)
  | integerValue (n : ℚ)
  | doubleValue (n : ℚ)
  | booleanValue (b : Bool)
  | nullValue
  | timestampValue (ms : ℤ)
  | geoPointValue (latitude longitude : ℚ)
  | referenceValue (s : String)
  | mapValue (fields : Option (List (String × FSValue)))
  | arrayValue (values : Option (List FSValue))
  | unknown

/-- `key in object` for a plain object: membership of an own property key. -/
def hasKey {α : Type} (fields : List (String × α)) (k : String) : Bool :=
  fields.any (fun p => p.1 == k)

/-- Property access `object[k]` on a plain object; `none` models `undefined`. -/
def getKey {α : Type} (fields : List (String × α)) (k : String) : Option α :=
  (fields.find? (fun p => p.1 == k)).map Prod.snd

/-- The property write performed by a spread literal `{...fields, k: v}`:
if `k` is already a key it keeps its position and takes the new value,
otherwise the property is appended at the end. -/
def entSet {α : Type} (fields : List (String × α)) (k : String) (v : α) :
    List (String × α) :=
  if hasKey fields k then
    fields.map (fun p => if p.1 == k then (k, v) else p)
  else
    fields ++ [(k, v)]

/-- The exact-shape check of `converter.ts` for a hand-written document
reference: `'referenceValue' in unknown && Object.keys(unknown).length === 1
&& typeof unknown.referenceValue === 'string'`. -/
def isReferenceShape (fields : List (String × JSValue)) : Bool :=
  hasKey fields "referenceValue" && fields.length == 1 &&
    (match getKey fields "referenceValue" with
      | some (.str _) => true
      | _ => false)

/-- The exact-shape check of `converter.ts` for a geo-point literal,
transcribed with its inner-key count test exactly as written in the source:
`'latitude' in gp && 'longitude' in gp && Object.keys(gp).length === 1 && ...`.
The `typeof gp === 'object' && !!gp` prefix admits only non-null objects;
of those, only a plain object can carry `latitude`/`longitude` own keys, so
matching the payload against `JSValue.obj` is faithful. -/
def isGeoPointShape (fields : List (String × JSValue)) : Bool :=
  hasKey fields "geoPointValue" && fields.length == 1 &&
    (match getKey fields "geoPointValue" with
      | some (.obj g) =>
          hasKey g "latitude" && hasKey g "longitude" && g.length == 1 &&
            (match getKey g "latitude" with
              | some (.num _) => true
              | _ => false) &&
            (match getKey g "longitude" with
              | some (.num _) => true
              | _ => false)
      | _ => false)

/-- The latitude payload read back out of a geo-point-shaped object (with a
default that is never consulted when `isGeoPointShape` holds). -/
def geoLat (fields : List (String × JSValue)) : ℚ :=
  match getKey fields "geoPointValue" with
  | some (.obj g) =>
      match getKey g "latitude" with
      | some (.num q) => q
      | _ => 0
  | _ => 0

/-- The longitude payload read back out of a geo-point-shaped object. -/
def geoLng (fields : List (String × JSValue)) : ℚ :=
  match getKey fields "geoPointValue" with
  | some (.obj g) =>
      match getKey g "longitude" with
      | some (.num q) => q
      | _ => 0
  | _ => 0

mutual

/-- `convertToFirestoreValue` of `src/utils/converter.ts`: JavaScript value to
Firestore wire value, with the dispatch branches in source order.  The
`value.map(convertToFirestoreValue)` and entry `reduce` of the source are the
mutually recursive list workers below. -/
def convertToFirestoreValue : JSValue → FSValue
  | .date ms => .timestampValue ms
  | .docRef resolved => .referenceValue resolved
  | .str s => .stringValue s
  | .num q => if q.den = 1 then .integerValue q else .doubleValue q
  | .boolean b => .booleanValue b
  | .null => .nullValue
  | .undefined => .nullValue
  | .arr elems => .arrayValue (some (convertToFirestoreValueList elems))
  | .obj fields =>
      if isReferenceShape fields then
        .referenceValue
          (match getKey fields "referenceValue" with
            | some (.str s) => s
            | _ => "")
      else if isGeoPointShape fields then
        .geoPointValue (geoLat fields) (geoLng fields)
      else
        .mapValue (some (convertToFirestoreValueEntries fields))
  | .other coerced => .stringValue coerced

/-- Elementwise encoding of an array's elements, in order. -/
def convertToFirestoreValueList : List JSValue → List FSValue
  | [] => []
  | x :: xs => convertToFirestoreValue x :: convertToFirestoreValueList xs

/-- Entrywise encoding of an object's `Object.entries` list, in order. -/
def convertToFirestoreValueEntries :
    List (String × JSValue) → List (String × FSValue)
  | [] => []
  | (k, v) :: rest => (k, convertToFirestoreValue v) :: convertToFirestoreValueEntries rest

end

mutual

/-- `convertFromFirestoreValue` of `src/utils/converter.ts`: Firestore wire
value back to a JavaScript value.  The `geoPointValue` and `referenceValue`
branches return the wire object itself, which as a JavaScript value is the
corresponding plain object.  A `mapValue` lacking `fields` and an
`arrayValue` lacking `values` fail their guards and fall through to the
final `return null`. -/
def convertFromFirestoreValue : FSValue → JSValue
  | .stringValue s => .str s
  | .integerValue n => .num n
  | .doubleValue n => .num n
  | .booleanValue b => .boolean b
  | .nullValue => .null
  | .timestampValue ms => .date ms
  | .geoPointValue lat lng =>
      .obj [("geoPointValue", .obj [("latitude", .num lat), ("longitude", .num lng)])]
  | .referenceValue s => .obj [("referenceValue", .str s)]
  | .mapValue (some fields) => .obj (convertFromFirestoreValueEntries fields)
  | .mapValue none => .null
  | .arrayValue (some values) => .arr (convertFromFirestoreValueList values)
  | .arrayValue none => .null
  | .unknown => .null

/-- Elementwise decoding of an `arrayValue`'s elements, in order. -/
def convertFromFirestoreValueList : List FSValue → List JSValue
  | [] => []
  | x :: xs => convertFromFirestoreValue x :: convertFromFirestoreValueList xs

/-- Entrywise decoding of a `mapValue`'s `fields` entries, in order. -/
def convertFromFirestoreValueEntries :
    List (String × FSValue) → List (String × JSValue)
  | [] => []
  | (k, v) :: rest => (k, convertFromFirestoreValue v) :: convertFromFirestoreValueEntries rest

end

/-- The characters of the final `/`-delimited segment: the first argument
accumulates the segment read so far and is reset at every `/`. -/
def tailSeg : List Char → List Char → List Char
  | seg, [] => seg
  | _, '/' :: rest => tailSeg [] rest
  | seg, c :: rest => tailSeg (seg ++ [c]) rest

/-- Modelled from the spec: `getDocumentId` (imported from `./path`, a file
not present in the sources) extracts the document identifier from a resource
name — it "strips all path segments up to and including the last `/`", i.e.
returns the final `/`-delimited segment. -/
def getDocumentId (name : String) : String :=
  String.mk (tailSeg [] name.data)

/-- `FirestoreResponse` of `src/types.ts`: resource name, optional tagged
fields, optional server timestamps. -/
structure FirestoreResponse where
  name : String
  fields : Option (List (String × FSValue))
  createTime : Option String
  updateTime : Option String

/-- `FirestoreDocument` of `src/types.ts`: optional resource name, tagged
fields, optional server timestamps. -/
structure FirestoreDocument where
  name : Option String
  fields : List (String × FSValue)
  createTime : Option String
  updateTime : Option String

/-- `convertToFirestoreDocument` of `src/utils/converter.ts`: encode every
field of a native record, building the `fields` member entry by entry. -/
def convertToFirestoreDocument (data : List (String × JSValue)) :
    FirestoreDocument :=
  ⟨none, convertToFirestoreValueEntries data, none, none⟩

/-- `convertFromFirestoreDocument` of `src/utils/converter.ts`: decode every
field of a wire document and install `id` from the resource name with the
spread `{...result, id: getDocumentId(doc.name)}`.  When `fields` is absent
the early return produces only the `id` member. -/
def convertFromFirestoreDocument (doc : FirestoreResponse) :
    List (String × JSValue) :=
  match doc.fields with
  | none => [("id", .str (getDocumentId doc.name))]
  | some fs =>
      entSet (convertFromFirestoreValueEntries fs) "id"
        (.str (getDocumentId doc.name))

/-- A decoded value of the variant converter `Part0` (the repository source
file of unknown name).  Its decoder wraps geo-point and reference wire values
in the `LiteralGeoPointValue` / `LiteralDocumentReference` handle classes,
which are imported from a types module not present in the sources; modelled
from the spec ("a native geo-point handle wrapping the latitude/longitude
pair", and the reference analogue) as the two dedicated constructors. -/
inductive P0Value where
  | str (s : String)
  | num (q : ℚ)
  | boolean (b : Bool)
  | null
  | date (ms : ℤ)
  | litGeoPoint (latitude longitude : ℚ)
  | litDocRef (s : String)
  | arr (elems : List P0Value)
  | obj (fields : List (String × P0Value))

namespace Part0

mutual

/-- `convertFromFirestoreValue` of the `Part0` variant converter.  It differs
from `src/utils/converter.ts` in returning handle objects for geo-points and
references, and in its `arrayValue` branch: `"arrayValue" in firestoreValue`
alone guards the branch and the body maps over
`firestoreValue.arrayValue.values ?? []`, so an absent `values` member
decodes to an empty array rather than falling through to `null`. -/
def convertFromFirestoreValue : FSValue → P0Value
  | .stringValue s => .str s
  | .integerValue n => .num n
  | .doubleValue n => .num n
  | .booleanValue b => .boolean b
  | .nullValue => .null
  | .timestampValue ms => .date ms
  | .geoPointValue lat lng => .litGeoPoint lat lng
  | .referenceValue s => .litDocRef s
  | .mapValue (some fields) => .obj (convertFromFirestoreValueEntries fields)
  | .mapValue none => .null
  | .arrayValue (some values) => .arr (convertFromFirestoreValueList values)
  | .arrayValue none => .arr []
  | .unknown => .null

/-- Elementwise decoding of an `arrayValue`'s elements for `Part0`. -/
def convertFromFirestoreValueList : List FSValue → List P0Value
  | [] => []
  | x :: xs => convertFromFirestoreValue x :: convertFromFirestoreValueList xs

/-- Entrywise decoding of a `mapValue`'s `fields` entries for `Part0`. -/
def convertFromFirestoreValueEntries :
    List (String × FSValue) → List (String × P0Value)
  | [] => []
  | (k, v) :: rest =>
      (k, convertFromFirestoreValue v) :: convertFromFirestoreValueEntries rest

end

end Part0

mutual

/-- The native values quantified over by the round-trip property: strings,
numbers, booleans, null, dates, and sequences / plain mappings of such
values.  `undefined`, live reference handles and fallback-coerced values are
outside the set. -/
def good : JSValue → Bool
  | .str _ => true
  | .num _ => true
  | .boolean _ => true
  | .null => true
  | .date _ => true
  | .arr elems => goodList elems
  | .obj fields => goodEntries fields
  | .undefined => false
  | .docRef _ => false
  | .other _ => false

/-- Every element of the list is `good`. -/
def goodList : List JSValue → Bool
  | [] => true
  | x :: xs => good x && goodList xs

/-- Every entry value of the list is `good`. -/
def goodEntries : List (String × JSValue) → Bool
  | [] => true
  | (_, v) :: rest => good v && goodEntries rest

end

mutual

/-- Recursively well-tagged wire values: the wire object carries exactly one
of the ten discriminator keys (`FSValue.unknown`, the zero-discriminator
object, is excluded), and the same holds for every nested wire value inside
`mapValue` fields and `arrayValue` elements. -/
def wireOK : FSValue → Bool
  | .mapValue (some fields) => wireOKEntries fields
  | .arrayValue (some values) => wireOKList values
  | .unknown => false
  | _ => true

/-- Every element of the list is recursively well-tagged. -/
def wireOKList : List FSValue → Bool
  | [] => true
  | x :: xs => wireOK x && wireOKList xs

/-- Every entry value of the list is recursively well-tagged. -/
def wireOKEntries : List (String × FSValue) → Bool
  | [] => true
  | (_, v) :: rest => wireOK v && wireOKEntries rest

end

/-! ## Helper lemmas -/

theorem convertToFirestoreValueList_eq_map (xs : List JSValue) :
    convertToFirestoreValueList xs = xs.map convertToFirestoreValue := by
  induction xs with
  | nil => rfl
  | cons x xs ih => simp [convertToFirestoreValueList, ih]

theorem convertToFirestoreValueEntries_eq_map (fs : List (String × JSValue)) :
    convertToFirestoreValueEntries fs
      = fs.map (fun p => (p.1, convertToFirestoreValue p.2)) := by
  induction fs with
  | nil => rfl
  | cons p rest ih =>
      cases p
      simp [convertToFirestoreValueEntries, ih]

theorem convertFromFirestoreValueList_eq_map (xs : List FSValue) :
    convertFromFirestoreValueList xs = xs.map convertFromFirestoreValue := by
  induction xs with
  | nil => rfl
  | cons x xs ih => simp [convertFromFirestoreValueList, ih]

theorem convertFromFirestoreValueEntries_eq_map (fs : List (String × FSValue)) :
    convertFromFirestoreValueEntries fs
      = fs.map (fun p => (p.1, convertFromFirestoreValue p.2)) := by
  induction fs with
  | nil => rfl
  | cons p rest ih =>
      cases p
      simp [convertFromFirestoreValueEntries, ih]

theorem part0_convertFromFirestoreValueList_eq_map (xs : List FSValue) :
    Part0.convertFromFirestoreValueList xs
      = xs.map Part0.convertFromFirestoreValue := by
  induction xs with
  | nil => rfl
  | cons x xs ih => simp [Part0.convertFromFirestoreValueList, ih]

/-- The geo-point exact-shape check of `converter.ts` never accepts: it
requires both `latitude` and `longitude` among the inner object's keys while
also requiring the inner object to have exactly one key. -/
theorem isGeoPointShape_eq_false (fields : List (String × JSValue)) :
    isGeoPointShape fields = false := by
  unfold isGeoPointShape
  rcases hg : getKey fields "geoPointValue" with _ | v
  · simp
  · cases v with
    | obj g =>
        rcases g with _ | ⟨⟨k, v⟩, rest⟩
        · simp [hasKey]
        · rcases rest with _ | ⟨q, rest⟩
          · by_cases hk : k = "latitude"
            · subst hk
              simp [hasKey]
            · simp [hasKey, hk]
          · simp [hasKey]
    | str s => simp
    | num q => simp
    | boolean b => simp
    | null => simp
    | undefined => simp
    | date ms => simp
    | docRef r => simp
    | arr elems => simp
    | other c => simp

/-- Characterisation of the document-reference exact-shape check: it accepts
exactly the singleton object `{referenceValue: s}` with a string payload. -/
theorem isReferenceShape_spec (fields : List (String × JSValue))
    (h : isReferenceShape fields = true) :
    ∃ s, fields = [("referenceValue", JSValue.str s)] := by
  unfold isReferenceShape at h
  rcases fields with _ | ⟨⟨k, v⟩, rest⟩
  · simp [hasKey] at h
  · rcases rest with _ | ⟨q, rest⟩
    · simp only [hasKey, getKey, List.any, List.find?, List.length,
        Bool.and_eq_true, beq_iff_eq] at h
      obtain ⟨⟨hk, -⟩, hv⟩ := h
      rw [Bool.or_false, beq_iff_eq] at hk
      subst hk
      simp only [beq_self_eq_true] at hv
      cases v with
      | str s => exact ⟨s, rfl⟩
      | num q => simp at hv
      | boolean b => simp at hv
      | null => simp at hv
      | undefined => simp at hv
      | date ms => simp at hv
      | docRef r => simp at hv
      | arr elems => simp at hv
      | obj fs => simp at hv
      | other c => simp at hv
    · simp [hasKey] at h

theorem getKey_map_value {α β : Type} (f : α → β) (m : List (String × α))
    (k : String) :
    getKey (m.map (fun p => (p.1, f p.2))) k = (getKey m k).map f := by
  induction m with
  | nil => rfl
  | cons p rest ih =>
      by_cases hp : p.1 == k
      · simp [getKey, List.find?, hp]
      · simp only [List.map_cons]
        simp [getKey, List.find?, hp] at ih ⊢
        exact ih

theorem map_fst_map_value {α β : Type} (f : α → β) (m : List (String × α)) :
    (m.map (fun p => (p.1, f p.2))).map Prod.fst = m.map Prod.fst := by
  simp [List.map_map]

theorem getKey_eq_none {α : Type} (m : List (String × α)) (k : String) :
    hasKey m k = false → getKey m k = none := by
  induction m with
  | nil => intro _; rfl
  | cons p rest ih =>
      intro h
      by_cases hp : p.1 == k
      · simp [hasKey, hp] at h
      · have hrest : hasKey rest k = false := by
          simpa [hasKey, hp] using h
        simp [getKey, List.find?, hp] at ih ⊢
        exact ih hrest

theorem getKey_setExisting {α : Type} (m : List (String × α)) (k : String)
    (v : α) :
    hasKey m k = true →
      getKey (m.map (fun p => if p.1 == k then (k, v) else p)) k = some v := by
  induction m with
  | nil => intro h; simp [hasKey] at h
  | cons p rest ih =>
      intro h
      by_cases hp : p.1 == k
      · simp [getKey, List.find?, hp]
      · have hrest : hasKey rest k = true := by
          simpa [hasKey, hp] using h
        simp only [List.map_cons, if_neg hp]
        simp [getKey, List.find?, hp] at ih ⊢
        exact ih hrest

theorem getKey_setMissing {α : Type} (m : List (String × α)) (k : String)
    (v : α) :
    hasKey m k = false → getKey (m ++ [(k, v)]) k = some v := by
  induction m with
  | nil => intro _; simp [getKey, List.find?]
  | cons p rest ih =>
      intro h
      by_cases hp : p.1 == k
      · simp [hasKey, hp] at h
      · have hrest : hasKey rest k = false := by
          simpa [hasKey, hp] using h
        simp only [List.cons_append]
        simp [getKey, List.find?, hp] at ih ⊢
        exact ih hrest

/-- The spread-write `{...m, k: v}` always leaves `v` at key `k`. -/
theorem getKey_entSet_self {α : Type} (m : List (String × α)) (k : String)
    (v : α) : getKey (entSet m k v) k = some v := by
  unfold entSet
  by_cases h : hasKey m k = true
  · rw [if_pos (by simp [h])]
    exact getKey_setExisting m k v h
  · have h' : hasKey m k = false := by simpa using h
    rw [if_neg (by simp [h'])]
    exact getKey_setMissing m k v h'

theorem getKey_set_ne {α : Type} (m : List (String × α)) (k : String) (v : α)
    (k' : String) (h : k' ≠ k) :
    getKey (m.map (fun p => if p.1 == k then (k, v) else p)) k' = getKey m k' := by
  induction m with
  | nil => rfl
  | cons p rest ih =>
      by_cases hp : p.1 == k
      · have hpk : p.1 = k := by simpa using hp
        have hkne : (k == k') = false := by
          simp only [beq_eq_false_iff_ne, ne_eq]
          exact fun hc => h hc.symm
        have hpne : (p.1 == k') = false := by rw [hpk]; exact hkne
        simp [getKey, List.find?, hp, hkne, hpne] at ih ⊢
        exact ih
      · simp only [List.map_cons, if_neg hp]
        by_cases hp' : p.1 == k'
        · simp [getKey, List.find?, hp']
        · simp [getKey, List.find?, hp'] at ih ⊢
          exact ih

theorem getKey_append_ne {α : Type} (m : List (String × α)) (k : String)
    (v : α) (k' : String) (h : k' ≠ k) :
    getKey (m ++ [(k, v)]) k' = getKey m k' := by
  induction m with
  | nil =>
      have hkne : (k == k') = false := by
        simp only [beq_eq_false_iff_ne, ne_eq]
        exact fun hc => h hc.symm
      simp [getKey, List.find?, hkne]
  | cons p rest ih =>
      by_cases hp' : p.1 == k'
      · simp [getKey, List.find?, hp']
      · simp only [List.cons_append]
        simp [getKey, List.find?, hp'] at ih ⊢
        exact ih

/-- The spread-write `{...m, k: v}` does not disturb other keys. -/
theorem getKey_entSet_ne {α : Type} (m : List (String × α)) (k : String)
    (v : α) (k' : String) (h : k' ≠ k) :
    getKey (entSet m k v) k' = getKey m k' := by
  unfold entSet
  by_cases hk : hasKey m k = true
  · rw [if_pos (by simp [hk])]
    exact getKey_set_ne m k v k' h
  · have h' : hasKey m k = false := by simpa using hk
    rw [if_neg (by simp [h'])]
    exact getKey_append_ne m k v k' h

mutual

/-- Decoding inverts encoding on the round-trip value universe. -/
theorem decode_encode : ∀ (v : JSValue), good v = true →
    convertFromFirestoreValue (convertToFirestoreValue v) = v
  | .str _, _ => rfl
  | .num q, _ => by
      by_cases hq : q.den = 1 <;>
        simp [convertToFirestoreValue, convertFromFirestoreValue, hq]
  | .boolean _, _ => rfl
  | .null, _ => rfl
  | .date _, _ => rfl
  | .undefined, h => by simp [good] at h
  | .docRef _, h => by simp [good] at h
  | .other _, h => by simp [good] at h
  | .arr xs, h => by
      have hxs := decode_encode_list xs h
      simp [convertToFirestoreValue, convertFromFirestoreValue, hxs]
  | .obj fields, h => by
      by_cases href : isReferenceShape fields = true
      · obtain ⟨s, rfl⟩ := isReferenceShape_spec fields href
        rfl
      · have hgeo := isGeoPointShape_eq_false fields
        have hfs := decode_encode_entries fields h
        simp only [Bool.not_eq_true] at href
        simp [convertToFirestoreValue, convertFromFirestoreValue, href, hgeo,
          hfs]

/-- Elementwise round trip for array elements. -/
theorem decode_encode_list : ∀ (xs : List JSValue), goodList xs = true →
    convertFromFirestoreValueList (convertToFirestoreValueList xs) = xs
  | [], _ => rfl
  | x :: xs, h => by
      have h' : good x = true ∧ goodList xs = true := by
        simpa [goodList] using h
      simp [convertToFirestoreValueList, convertFromFirestoreValueList,
        decode_encode x h'.1, decode_encode_list xs h'.2]

/-- Entrywise round trip for object fields. -/
theorem decode_encode_entries : ∀ (fs : List (String × JSValue)),
    goodEntries fs = true →
    convertFromFirestoreValueEntries (convertToFirestoreValueEntries fs) = fs
  | [], _ => rfl
  | (k, v) :: rest, h => by
      have h' : good v = true ∧ goodEntries rest = true := by
        simpa [goodEntries] using h
      simp [convertToFirestoreValueEntries, convertFromFirestoreValueEntries,
        decode_encode v h'.1, decode_encode_entries rest h'.2]

end

mutual

/-- Every encoder output is recursively well-tagged. -/
theorem encode_wireOK : ∀ (v : JSValue),
    wireOK (convertToFirestoreValue v) = true
  | .str _ => rfl
  | .num q => by
      by_cases hq : q.den = 1 <;> simp [convertToFirestoreValue, wireOK, hq]
  | .boolean _ => rfl
  | .null => rfl
  | .undefined => rfl
  | .date _ => rfl
  | .docRef _ => rfl
  | .other _ => rfl
  | .arr xs => by
      have hxs := encode_wireOK_list xs
      simp [convertToFirestoreValue, wireOK, hxs]
  | .obj fields => by
      by_cases href : isReferenceShape fields = true
      · simp [convertToFirestoreValue, href, wireOK]
      · have hgeo := isGeoPointShape_eq_false fields
        have hfs := encode_wireOK_entries fields
        simp only [Bool.not_eq_true] at href
        simp [convertToFirestoreValue, wireOK, href, hgeo, hfs]

/-- Every encoded array element is recursively well-tagged. -/
theorem encode_wireOK_list : ∀ (xs : List JSValue),
    wireOKList (convertToFirestoreValueList xs) = true
  | [] => rfl
  | x :: xs => by
      simp [convertToFirestoreValueList, wireOKList, encode_wireOK x,
        encode_wireOK_list xs]

/-- Every encoded object field is recursively well-tagged. -/
theorem encode_wireOK_entries : ∀ (fs : List (String × JSValue)),
    wireOKEntries (convertToFirestoreValueEntries fs) = true
  | [] => rfl
  | (k, v) :: rest => by
      simp [convertToFirestoreValueEntries, wireOKEntries, encode_wireOK v,
        encode_wireOK_entries rest]

end

/-! ## Claim theorems -/

/-- Claim C1 (failing input evaluated): the exact-shape geo-point input
`{geoPointValue: {latitude: 35, longitude: 139}}` is NOT passed through as a
`geoPointValue` wire value but falls to generic `mapValue` encoding, and so
does the same input with an extra top-level key; indeed the geo-point
exact-shape check of `converter.ts` accepts no plain object at all, because
it demands both `latitude` and `longitude` keys while also demanding exactly
one inner key (`Object.keys(...).length === 1` where the matching shape has
two keys). -/
theorem claim_c1_geoPoint_sniff_dead :
    convertToFirestoreValue
        (.obj [("geoPointValue",
          .obj [("latitude", .num 35), ("longitude", .num 139)])])
      = .mapValue (some [("geoPointValue",
          .mapValue (some [("latitude", .integerValue 35),
            ("longitude", .integerValue 139)]))])
  ∧ convertToFirestoreValue
        (.obj [("geoPointValue",
          .obj [("latitude", .num 35), ("longitude", .num 139)]),
          ("extra", .num 1)])
      = .mapValue (some [("geoPointValue",
          .mapValue (some [("latitude", .integerValue 35),
            ("longitude", .integerValue 139)])),
          ("extra", .integerValue 1)])
  ∧ ∀ fields : List (String × JSValue), isGeoPointShape fields = false :=
  ⟨rfl, rfl, isGeoPointShape_eq_false⟩

/-- Claim C2: decoding inverts encoding for every native value drawn from
strings, numbers, booleans, null, dates, and sequences / plain mappings of
such values (`good`); dates compare by instant because the wire timestamp is
modelled by the instant its ISO string denotes, and numbers compare by
rational value, so an integral double round-trips to the equal integer. -/
theorem claim_c2_roundtrip (v : JSValue) (h : good v = true) :
    convertFromFirestoreValue (convertToFirestoreValue v) = v :=
  decode_encode v h

theorem claim_c2_roundtrip_witness :
    convertFromFirestoreValue (convertToFirestoreValue (JSValue.obj
      [("r", .obj [("referenceValue", .str "projects/p/documents/c/d1")]),
       ("a", .arr [.num 1, .str "b", .null]),
       ("when", .date 1700000000000),
       ("ok", .boolean true)]))
    = JSValue.obj
      [("r", .obj [("referenceValue", .str "projects/p/documents/c/d1")]),
       ("a", .arr [.num 1, .str "b", .null]),
       ("when", .date 1700000000000),
       ("ok", .boolean true)] :=
  claim_c2_roundtrip _ rfl

/-- Claim C3 (counterexample): on `{arrayValue: {}}` — discriminator
`arrayValue` with the `values` member absent — the decoder of `converter.ts`
returns null, not an empty sequence, refuting the claim as stated. -/
theorem claim_c3_counterexample :
    convertFromFirestoreValue (.arrayValue none) = .null
  ∧ JSValue.null ≠ JSValue.arr [] :=
  ⟨rfl, by simp⟩

/-- Claim C3 (amended): both decoder variants decode each element of a
present `values` member recursively, preserving order; when `values` is
absent, the `converter.ts` decoder returns null (the guard
`firestoreValue.arrayValue.values` fails and control falls through to
`return null`), while the variant decoder of the unnamed source file returns
an empty sequence (`values ?? []`). -/
theorem claim_c3_arrayValue_decode :
    (∀ vs : List FSValue,
        convertFromFirestoreValue (.arrayValue (some vs))
          = .arr (vs.map convertFromFirestoreValue))
  ∧ convertFromFirestoreValue (.arrayValue none) = .null
  ∧ (∀ vs : List FSValue,
        Part0.convertFromFirestoreValue (.arrayValue (some vs))
          = .arr (vs.map Part0.convertFromFirestoreValue))
  ∧ Part0.convertFromFirestoreValue (.arrayValue none) = .arr [] :=
  ⟨fun vs => by
      simp [convertFromFirestoreValue, convertFromFirestoreValueList_eq_map],
    rfl,
    fun vs => by
      simp [Part0.convertFromFirestoreValue,
        part0_convertFromFirestoreValueList_eq_map],
    rfl⟩

/-- Claim C4: every wire value the encoder produces carries exactly one of
the ten discriminator keys, recursively inside `mapValue` fields and
`arrayValue` elements: in the wire embedding each constructor carries
exactly its own discriminator key and `FSValue.unknown` is the
zero-discriminator object, so the invariant is `wireOK`. -/
theorem claim_c4_discriminator (v : JSValue) :
    wireOK (convertToFirestoreValue v) = true :=
  encode_wireOK v

/-- Claim C5: the encoder maps a number to `integerValue` exactly when it is
mathematically an integer and to `doubleValue` otherwise; in particular 5
and 5.0 (the same rational) encode as `integerValue 5` and 5.5 encodes as
`doubleValue 5.5`. -/
theorem claim_c5_number_split :
    (∀ q : ℚ, (∃ n : ℤ, q = (n : ℚ)) →
        convertToFirestoreValue (.num q) = .integerValue q)
  ∧ (∀ q : ℚ, (¬∃ n : ℤ, q = (n : ℚ)) →
        convertToFirestoreValue (.num q) = .doubleValue q)
  ∧ convertToFirestoreValue (.num 5) = .integerValue 5
  ∧ convertToFirestoreValue (.num (5.5 : ℚ)) = .doubleValue (5.5 : ℚ)
  ∧ convertToFirestoreValue (.num (5.0 : ℚ)) = .integerValue 5 := by
  refine ⟨?_, ?_, rfl, ?_, ?_⟩
  · rintro q ⟨n, rfl⟩
    simp [convertToFirestoreValue, Rat.den_intCast]
  · intro q hq
    have hden : q.den ≠ 1 := by
      intro h
      exact hq ⟨q.num, ((Rat.den_eq_one_iff q).mp h).symm⟩
    simp [convertToFirestoreValue, hden]
  · have hden : (5.5 : ℚ).den = 2 := by norm_num [Rat.den]
    simp [convertToFirestoreValue, hden]
  · have h50 : (5.0 : ℚ) = 5 := by norm_num
    rw [h50]
    rfl

theorem claim_c5_witness :
    convertToFirestoreValue (.num 3) = .integerValue 3 :=
  claim_c5_number_split.1 3 ⟨3, rfl⟩

/-- Claim C6: null and undefined collapse to the same wire representation
`{nullValue: null}` (the wire constructor `FSValue.nullValue`, whose payload
in the source is the explicit literal `null`). -/
theorem claim_c6_null_collapse :
    convertToFirestoreValue .null = .nullValue
  ∧ convertToFirestoreValue .undefined = .nullValue :=
  ⟨rfl, rfl⟩

/-- Claim C7: the decoder is a total function (it is defined by exhaustive
structural cases, so it can never raise for data-shape reasons), and both a
wire object with no recognised discriminator key (such as `{}`) and a
`mapValue` without a `fields` member decode to null. -/
theorem claim_c7_unknown_null :
    convertFromFirestoreValue .unknown = .null
  ∧ convertFromFirestoreValue (.mapValue none) = .null :=
  ⟨rfl, rfl⟩

/-- Claim C8: document decoding yields every field of `fields` decoded by
`convertFromFirestoreValue` plus an `id` member holding the final
`/`-delimited segment of the resource name; with `fields` absent the result
is exactly the singleton `id` record, as on the concrete resource name of
the specification's example. -/
theorem claim_c8_document_decode :
    (∀ (name : String) (cT uT : Option String),
        convertFromFirestoreDocument ⟨name, none, cT, uT⟩
          = [("id", .str (getDocumentId name))])
  ∧ (∀ (name : String) (fs : List (String × FSValue))
        (cT uT : Option String) (k : String), k ≠ "id" →
        getKey (convertFromFirestoreDocument ⟨name, some fs, cT, uT⟩) k
          = (getKey fs k).map convertFromFirestoreValue)
  ∧ (∀ (name : String) (fs : List (String × FSValue))
        (cT uT : Option String),
        getKey (convertFromFirestoreDocument ⟨name, some fs, cT, uT⟩) "id"
          = some (.str (getDocumentId name)))
  ∧ convertFromFirestoreDocument
      ⟨"projects/p/databases/(default)/documents/col/doc1", none, none, none⟩
      = [("id", .str "doc1")] := by
  refine ⟨fun _ _ _ => rfl, ?_, ?_, rfl⟩
  · intro name fs cT uT k hk
    show getKey (entSet (convertFromFirestoreValueEntries fs) "id"
      (.str (getDocumentId name))) k = _
    rw [getKey_entSet_ne _ _ _ _ hk, convertFromFirestoreValueEntries_eq_map,
      getKey_map_value]
  · intro name fs cT uT
    exact getKey_entSet_self _ _ _

theorem claim_c8_witness :
    getKey (convertFromFirestoreDocument
      ⟨"projects/p/databases/(default)/documents/col/doc1",
        some [("n", .stringValue "x")], none, none⟩) "n"
      = some (.str "x") := by
  have h := claim_c8_document_decode.2.1
    "projects/p/databases/(default)/documents/col/doc1"
    [("n", .stringValue "x")] none none "n" (by decide)
  simpa using h

/-- Claim C9: document encoding passes the key set through exactly — the
`fields` member carries the same keys in the same order as the input record
— and each value is `convertToFirestoreValue` of the corresponding input
value. -/
theorem claim_c9_document_encode (data : List (String × JSValue)) :
    (convertToFirestoreDocument data).fields.map Prod.fst
        = data.map Prod.fst
  ∧ ∀ k : String,
      getKey (convertToFirestoreDocument data).fields k
        = (getKey data k).map convertToFirestoreValue := by
  constructor
  · show (convertToFirestoreValueEntries data).map Prod.fst = _
    rw [convertToFirestoreValueEntries_eq_map]
    exact map_fst_map_value _ _
  · intro k
    show getKey (convertToFirestoreValueEntries data) k = _
    rw [convertToFirestoreValueEntries_eq_map, getKey_map_value]

/-- Claim C10: the `id` member of a decoded document always carries the
identifier derived from the resource name; a decoded field literally named
`id` is overwritten by it, as the concrete instance with a decoy `id` field
shows. -/
theorem claim_c10_id_overwrite :
    (∀ (name : String) (fs : List (String × FSValue))
        (cT uT : Option String),
        getKey (convertFromFirestoreDocument ⟨name, some fs, cT, uT⟩) "id"
          = some (.str (getDocumentId name)))
  ∧ convertFromFirestoreDocument
      ⟨"projects/p/databases/(default)/documents/col/doc1",
        some [("id", .stringValue "decoy")], none, none⟩
      = [("id", .str "doc1")] :=
  ⟨fun _ _ _ _ => getKey_entSet_self _ _ _, rfl⟩
